import Mathlib

/-!
Verification of the aiscan detection/audit engine against its specification.

The Rust sources are shallowly embedded: pure functions become Lean
functions, `&mut self` methods return the post-call state alongside the
`Result`, machine integers (`usize`) become `Nat` (no arithmetic here ever
nears overflow), `f64` dollar amounts become `ℚ` (they are only compared,
never rounded), and the external tree-sitter / regex engines are passed in
as oracle functions, since only the surrounding plumbing is specified.
-/

/-! ## Budget (`src/cost.rs`) -/

/-- The `Budget` struct of `src/cost.rs`: optional ceilings and used
counters for tokens, requests and USD cost. -/
structure Budget where
  max_tokens : Option Nat
  max_requests : Option Nat
  max_usd : Option ℚ
  used_tokens : Nat
  used_requests : Nat
  used_usd : ℚ
deriving DecidableEq, Repr

/-- The tail of `Budget::consume` after the token-ceiling guard: commit
`used_tokens += tokens; used_requests += 1`, then check the request
ceiling.  In the Rust code the mutation has already happened when the
request-ceiling `bail!` fires, so the error case returns the committed
state. -/
def Budget.consumeCommit (b : Budget) (tokens : Nat) : Except String Unit × Budget :=
  let b' := { b with used_tokens := b.used_tokens + tokens,
                     used_requests := b.used_requests + 1 }
  match b'.max_requests with
  | some max_requests =>
    if b'.used_requests > max_requests then
      (Except.error "Request budget exceeded", b')
    else
      (Except.ok (), b')
  | none => (Except.ok (), b')

/-- `Budget::consume` from `src/cost.rs`.  Rust signature
`fn consume(&mut self, tokens: usize) -> Result<()>`; we return the result
paired with the post-call state.  The token ceiling is checked before any
mutation (`bail!` leaves the state untouched); the request ceiling is
checked after the counters are committed. -/
def Budget.consume (b : Budget) (tokens : Nat) : Except String Unit × Budget :=
  match b.max_tokens with
  | some max =>
    if b.used_tokens + tokens > max then
      (Except.error "Token budget exceeded", b)
    else
      Budget.consumeCommit b tokens
  | none => Budget.consumeCommit b tokens

/-- `Budget::is_exceeded` from `src/cost.rs`: true when any configured
ceiling has been reached or passed (the Rust early returns collapse into a
disjunction). -/
def Budget.is_exceeded (b : Budget) : Bool :=
  (match b.max_tokens with
   | some max => b.used_tokens ≥ max
   | none => false)
  || (match b.max_requests with
      | some max => b.used_requests ≥ max
      | none => false)
  || (match b.max_usd with
      | some max => b.used_usd ≥ max
      | none => false)

/-- `Budget::remaining_tokens` from `src/cost.rs`. -/
def Budget.remaining_tokens (b : Budget) : Option Nat :=
  b.max_tokens.map (fun max => max - b.used_tokens)

/-- The budget of the spec's Budget Tracker scenario: `max_tokens = Some 1000`,
fresh counters, no other ceilings. -/
def budget1000 : Budget :=
  { max_tokens := some 1000, max_requests := none, max_usd := none,
    used_tokens := 0, used_requests := 0, used_usd := 0 }

/-- A budget sitting near its token ceiling, used to instantiate the
general token-ceiling statement. -/
def budgetNearCeil : Budget :=
  { max_tokens := some 1000, max_requests := none, max_usd := none,
    used_tokens := 998, used_requests := 3, used_usd := 0 }

/-- C1: with `max_tokens = Some 1000` and fresh counters, `consume 500`
succeeds; the following `consume 600` fails leaving the state unchanged
(500 tokens used); the following `consume 500` succeeds, reaching 1000
used tokens, after which `is_exceeded` is true.  In general, whenever
`used_tokens + tokens` would exceed the token ceiling, `consume` fails and
returns the state completely unmutated. -/
theorem budget_consume_token_ceiling :
    (((budget1000.consume 500).1.isOk = true
        ∧ (budget1000.consume 500).2.used_tokens = 500)
      ∧ (((budget1000.consume 500).2.consume 600).1.isOk = false
        ∧ ((budget1000.consume 500).2.consume 600).2 = (budget1000.consume 500).2)
      ∧ ((((budget1000.consume 500).2.consume 600).2.consume 500).1.isOk = true
        ∧ (((budget1000.consume 500).2.consume 600).2.consume 500).2.used_tokens = 1000)
      ∧ (((budget1000.consume 500).2.consume 600).2.consume 500).2.is_exceeded = true)
    ∧ ∀ (b : Budget) (t m : Nat), b.max_tokens = some m → b.used_tokens + t > m →
        (b.consume t).1.isOk = false ∧ (b.consume t).2 = b := by
  constructor
  · decide
  · intro b t m h1 h2
    simp only [Budget.consume, h1]
    rw [if_pos h2]
    exact ⟨rfl, rfl⟩

/-- Witness for C1's general clause at a concrete over-ceiling request. -/
theorem budget_consume_token_ceiling_witness :
    (budgetNearCeil.consume 5).1.isOk = false
      ∧ (budgetNearCeil.consume 5).2 = budgetNearCeil :=
  budget_consume_token_ceiling.2 budgetNearCeil 5 1000 rfl (by decide)

/-- A budget whose request ceiling is already saturated: the next consume
commits its counters and only then trips the request check. -/
def budgetReqFull : Budget :=
  { max_tokens := none, max_requests := some 0, max_usd := none,
    used_tokens := 0, used_requests := 0, used_usd := 0 }

/-- C2 counterexample: a `consume` that passes the token-ceiling check but
whose increment pushes `used_requests` over `max_requests` does NOT return
`Ok` — the Rust code `bail!`s after committing, so the call returns an
error. -/
theorem budget_request_overrun_not_ok :
    (budgetReqFull.consume 5).1.isOk = false := by decide

/-- C2 (amended): such a call returns an error, yet the token and request
usage stay committed, and `is_exceeded` reports true afterwards so future
calls are blocked. -/
theorem budget_request_overrun_commits :
    ∀ (b : Budget) (t mr : Nat), b.max_requests = some mr →
      (∀ m, b.max_tokens = some m → b.used_tokens + t ≤ m) →
      b.used_requests + 1 > mr →
      (b.consume t).1.isOk = false
        ∧ (b.consume t).2.used_tokens = b.used_tokens + t
        ∧ (b.consume t).2.used_requests = b.used_requests + 1
        ∧ (b.consume t).2.is_exceeded = true := by
  intro b t mr hreq htok hover
  have hcommit :
      (Budget.consumeCommit b t).1.isOk = false
        ∧ (Budget.consumeCommit b t).2.used_tokens = b.used_tokens + t
        ∧ (Budget.consumeCommit b t).2.used_requests = b.used_requests + 1
        ∧ (Budget.consumeCommit b t).2.is_exceeded = true := by
    simp only [Budget.consumeCommit, hreq]
    rw [if_pos hover]
    refine ⟨rfl, rfl, rfl, ?_⟩
    have hge : b.used_requests + 1 ≥ mr := Nat.le_of_lt_succ (Nat.lt_succ_of_lt hover)
    simp [Budget.is_exceeded, hreq, hge]
  cases hmt : b.max_tokens with
  | none => simpa only [Budget.consume, hmt] using hcommit
  | some m =>
    have hle : ¬ b.used_tokens + t > m := Nat.not_lt.mpr (htok m hmt)
    simp only [Budget.consume, hmt]
    rw [if_neg hle]
    exact hcommit

/-- Witness for the amended C2 at a concrete saturated request budget. -/
theorem budget_request_overrun_commits_witness :
    (budgetReqFull.consume 5).1.isOk = false
      ∧ (budgetReqFull.consume 5).2.used_tokens = budgetReqFull.used_tokens + 5
      ∧ (budgetReqFull.consume 5).2.used_requests = budgetReqFull.used_requests + 1
      ∧ (budgetReqFull.consume 5).2.is_exceeded = true :=
  budget_request_overrun_commits budgetReqFull 5 0 rfl
    (fun m hm => by simp [budgetReqFull] at hm) (by decide)

/-! ## Calls and the Normalizer (`src/core.rs`) -/

/-- The `AiCall` struct of `src/core.rs`.  `PathBuf` is embedded as a
`String`, and the `serde_json::Value` parameter bag as its serialized
text: the engine only ever moves and compares these fields. -/
structure AiCall where
  file : String
  line : Nat
  column : Nat
  wrapper : String
  model : Option String
  params : String
  context : String
deriving DecidableEq, Repr

/-- The dedup key used by `Scanner::scan_file`: the `(file, line, column)`
triple under Rust's lexicographic tuple order. -/
def callKey (c : AiCall) : Lex (String × Lex (Nat × Nat)) :=
  toLex (c.file, toLex (c.line, c.column))

/-- Generic model of Rust `Vec::dedup_by_key` after the head: `prev` is
the last retained element; an element whose key equals `prev`'s is
dropped, otherwise it is retained and becomes the new `prev`. -/
def dedupLoop {α κ : Type} [DecidableEq κ] (key : α → κ) (prev : α) : List α → List α
  | [] => []
  | b :: rest =>
    if key prev = key b then dedupLoop key prev rest
    else b :: dedupLoop key b rest

/-- Rust `Vec::dedup_by_key`: remove all but the first of consecutive
elements mapping to the same key. -/
def dedupByKey {α κ : Type} [DecidableEq κ] (key : α → κ) : List α → List α
  | [] => []
  | a :: rest => a :: dedupLoop key a rest

/-- The `sort_by_key` + `dedup_by_key` pair as used in both
`Scanner::scan_file` and `SecurityAuditor::audit`: stable sort by key,
then drop adjacent key-duplicates keeping the first-seen record. -/
def sortDedup {α κ : Type} [LinearOrder κ] (key : α → κ) (l : List α) : List α :=
  dedupByKey key (l.mergeSort (fun a b => decide (key a ≤ key b)))

/-- After a sorted prefix, `dedupLoop` yields keys strictly above `prev`'s
and strictly increasing. -/
theorem dedupLoop_lt {α κ : Type} [LinearOrder κ] (key : α → κ) :
    ∀ (l : List α) (prev : α), (∀ x ∈ l, key prev ≤ key x) →
      l.Pairwise (fun a b => key a ≤ key b) →
      (∀ x ∈ dedupLoop key prev l, key prev < key x)
        ∧ (dedupLoop key prev l).Pairwise (fun a b => key a < key b)
  | [], prev, _, _ => by simp [dedupLoop]
  | b :: rest, prev, hge, hpw => by
    rw [List.pairwise_cons] at hpw
    obtain ⟨hb_rest, hrest⟩ := hpw
    have hpb : key prev ≤ key b := hge b (List.mem_cons_self b rest)
    by_cases heq : key prev = key b
    · have hge' : ∀ x ∈ rest, key prev ≤ key x :=
        fun x hx => hge x (List.mem_cons_of_mem b hx)
      have ih := dedupLoop_lt key rest prev hge' hrest
      simpa [dedupLoop, heq] using ih
    · have hlt : key prev < key b := lt_of_le_of_ne hpb heq
      have ih := dedupLoop_lt key rest b hb_rest hrest
      simp only [dedupLoop, if_neg heq]
      refine ⟨?_, ?_⟩
      · intro x hx
        rcases List.mem_cons.mp hx with rfl | hx'
        · exact hlt
        · exact lt_trans hlt (ih.1 x hx')
      · exact List.pairwise_cons.mpr ⟨ih.1, ih.2⟩

/-- Deduplicating a key-sorted list yields strictly increasing keys. -/
theorem pairwise_lt_dedupByKey {α κ : Type} [LinearOrder κ] (key : α → κ)
    (l : List α) (hsort : l.Pairwise (fun a b => key a ≤ key b)) :
    (dedupByKey key l).Pairwise (fun a b => key a < key b) := by
  cases l with
  | nil => simp [dedupByKey]
  | cons a rest =>
    rw [List.pairwise_cons] at hsort
    have h := dedupLoop_lt key rest a hsort.1 hsort.2
    simp only [dedupByKey]
    exact List.pairwise_cons.mpr ⟨h.1, h.2⟩

/-- On a strictly key-increasing list, `dedupLoop` keeps everything. -/
theorem dedupLoop_eq_self {α κ : Type} [LinearOrder κ] (key : α → κ) :
    ∀ (l : List α) (prev : α),
      (prev :: l).Pairwise (fun a b => key a < key b) →
      dedupLoop key prev l = l
  | [], _, _ => by simp [dedupLoop]
  | b :: rest, prev, h => by
    rw [List.pairwise_cons] at h
    have hne : key prev ≠ key b := ne_of_lt (h.1 b (List.mem_cons_self b rest))
    simp only [dedupLoop, if_neg hne]
    rw [dedupLoop_eq_self key rest b h.2]

/-- On a strictly key-increasing list, `dedupByKey` is the identity. -/
theorem dedupByKey_eq_self {α κ : Type} [LinearOrder κ] (key : α → κ)
    (l : List α) (h : l.Pairwise (fun a b => key a < key b)) :
    dedupByKey key l = l := by
  cases l with
  | nil => rfl
  | cons a rest =>
    simp only [dedupByKey]
    rw [dedupLoop_eq_self key rest a h]

/-- The stable sort by key produces a key-sorted list. -/
theorem pairwise_le_mergeSortKey {α κ : Type} [LinearOrder κ] (key : α → κ)
    (l : List α) :
    (l.mergeSort (fun a b => decide (key a ≤ key b))).Pairwise
      (fun a b => key a ≤ key b) := by
  have htrans : ∀ (a b c : α),
      (fun a b => decide (key a ≤ key b)) a b →
      (fun a b => decide (key a ≤ key b)) b c →
      (fun a b => decide (key a ≤ key b)) a c := by
    intro a b c hab hbc
    exact decide_eq_true (le_trans (of_decide_eq_true hab) (of_decide_eq_true hbc))
  have htotal : ∀ (a b : α),
      ((fun a b => decide (key a ≤ key b)) a b
        || (fun a b => decide (key a ≤ key b)) b a) = true := by
    intro a b
    rcases le_total (key a) (key b) with h | h <;> simp [h]
  have h := List.sorted_mergeSort htrans htotal l
  exact h.imp (fun hab => of_decide_eq_true hab)

/-- Keys are strictly increasing — in particular pairwise distinct —
after `sortDedup`. -/
theorem pairwise_lt_sortDedup {α κ : Type} [LinearOrder κ] (key : α → κ)
    (l : List α) :
    (sortDedup key l).Pairwise (fun a b => key a < key b) :=
  pairwise_lt_dedupByKey key _ (pairwise_le_mergeSortKey key l)

/-- `sortDedup` is idempotent. -/
theorem sortDedup_idem {α κ : Type} [LinearOrder κ] (key : α → κ)
    (l : List α) : sortDedup key (sortDedup key l) = sortDedup key l := by
  have hlt := pairwise_lt_sortDedup key l
  have hle : (sortDedup key l).Pairwise
      (fun a b => decide (key a ≤ key b) = true) :=
    hlt.imp (fun h => decide_eq_true (le_of_lt h))
  have heq : sortDedup key (sortDedup key l)
      = dedupByKey key ((sortDedup key l).mergeSort
          (fun a b => decide (key a ≤ key b))) := rfl
  rw [heq, List.mergeSort_of_sorted hle]
  exact dedupByKey_eq_self key _ hlt

/-- `sortDedup` on an empty list. -/
theorem sortDedup_nil {α κ : Type} [LinearOrder κ] (key : α → κ) :
    sortDedup key ([] : List α) = [] := by
  simp [sortDedup, dedupByKey]

/-- `sortDedup` on a one-element list. -/
theorem sortDedup_singleton {α κ : Type} [LinearOrder κ] (key : α → κ)
    (a : α) : sortDedup key [a] = [a] := by
  simp [sortDedup, dedupByKey, dedupLoop]

/-- The Call Normalizer: the sort-and-dedup tail of `Scanner::scan_file`
(`src/core.rs` lines 190-192), applied to the concatenated structural and
lexical hits of one file. -/
def normalizeCalls (calls : List AiCall) : List AiCall :=
  sortDedup callKey calls

/-- C3: normalization leaves no two distinct Calls sharing a
`(file, line, column)` key, and running it again on its own output
changes nothing. -/
theorem normalizeCalls_key_unique_and_idempotent :
    ∀ (calls : List AiCall),
      (normalizeCalls calls).Pairwise (fun a b => callKey a ≠ callKey b)
        ∧ normalizeCalls (normalizeCalls calls) = normalizeCalls calls := by
  intro calls
  constructor
  · exact (pairwise_lt_sortDedup callKey calls).imp (fun h => ne_of_lt h)
  · exact sortDedup_idem callKey calls

/-! ## Structural matcher dispatch (`src/parser.rs`) and the scan
orchestrator (`src/core.rs`) -/

/-- Extensions with a registered `LanguageConfig` in `src/parser.rs`:
`rs`, `py`, `js`, `ts`. -/
def structuralExts : List String := ["rs", "py", "js", "ts"]

/-- Outcome of the external tree-sitter machinery on one file: either
`Parser::parse` returned no tree, or it produced a tree whose query
matches extract the given calls. -/
inductive ParseOutcome where
  | failed
  | parsed (hits : List AiCall)

/-- `FileParser::parse_file` from `src/parser.rs`, with the tree-sitter
engine abstracted as an oracle from extension and content to a
`ParseOutcome`.  The dispatch is the code's: a missing extension, an
extension without a registered language, and a failed parse are each an
error, not an empty result. -/
def parse_file (oracle : String → String → ParseOutcome)
    (ext : Option String) (content : String) : Except String (List AiCall) :=
  match ext with
  | none => Except.error "No file extension"
  | some e =>
    if e ∈ structuralExts then
      match oracle e content with
      | ParseOutcome.failed => Except.error "Failed to parse file"
      | ParseOutcome.parsed hits => Except.ok hits
    else
      Except.error ("Unsupported file type: " ++ e)

/-- One file presented to the Scan Orchestrator: its path, extension, and
the result of `fs::read_to_string` (`none` = unreadable). -/
structure FileEntry where
  path : String
  ext : Option String
  content : Option String
deriving DecidableEq, Repr

/-- The two external matching engines, abstracted: tree-sitter behind
`parse_file`, and the compiled regex table of
`PatternMatcher::find_matches` as a map from path and content to lexical
hits. -/
structure MatchOracles where
  structural : String → String → ParseOutcome
  lexical : String → String → List AiCall

/-- `Scanner::scan_file` from `src/core.rs`: read the file (an unreadable
file is an error), take the structural calls (a `parse_file` error is
swallowed via `if let Ok` and contributes nothing), append the lexical
matches, then sort and dedup by `(file, line, column)`. -/
def scan_file (o : MatchOracles) (f : FileEntry) : Except String (List AiCall) :=
  match f.content with
  | none => Except.error "read failed"
  | some content =>
    let structuralCalls :=
      match parse_file o.structural f.ext content with
      | Except.ok cs => cs
      | Except.error _ => []
    Except.ok (normalizeCalls (structuralCalls ++ o.lexical f.path content))

/-- The `Inventory` struct of `src/core.rs`. -/
structure Inventory where
  ai_calls : List AiCall
  files_scanned : Nat
  total_lines : Nat
  scan_duration_ms : Nat
deriving Repr

/-- `Scanner::scan_directory` from `src/core.rs`, over the files already
collected by the walker.  Each file is scanned in parallel and a failed
scan contributes nothing; the per-file results are flattened (the code
skips inserting empty result lists into the map, which flattens to the
same calls; worker/map order is immaterial to the claims, so input order
is used).  The `total_lines` atomic counter is initialized to zero and
read at the end — and never incremented in between, exactly as in the
source.  Wall-clock duration is not modeled. -/
def scan_directory (o : MatchOracles) (files : List FileEntry) : Inventory :=
  let results := files.map (fun f =>
    match scan_file o f with
    | Except.ok cs => cs
    | Except.error _ => [])
  { ai_calls := results.flatten,
    files_scanned := files.length,
    total_lines := 0,
    scan_duration_ms := 0 }

/-- A tree-sitter oracle that always fails, and a lexical oracle with one
fixed hit: enough to exercise the orchestrator's plumbing. -/
def demoCall : AiCall :=
  { file := "a.py", line := 3, column := 1, wrapper := "openai_config",
    model := none, params := "", context := "ctx" }

def demoOracles : MatchOracles :=
  { structural := fun _ _ => ParseOutcome.failed,
    lexical := fun _ _ => [demoCall] }

def readableFile : FileEntry :=
  { path := "a.py", ext := some "py", content := some "x = 1" }

def unreadableFile : FileEntry :=
  { path := "b.py", ext := some "py", content := none }

/-- C4 counterexample: for a file with the unsupported extension `md`,
`parse_file` does not return an empty sequence — it returns an error
(`Unsupported file type`). -/
theorem parse_file_unsupported_is_error :
    (parse_file demoOracles.structural (some "md") "x").isOk = false := by
  decide

/-- C4 (amended): for every file whose extension is missing or not in the
structural matcher's supported set, `parse_file` returns an error rather
than an empty sequence; the enclosing `scan_file` swallows that error, so
such a file contributes no structural Calls and the scan proceeds with the
lexical matches alone. -/
theorem parse_file_unsupported_error_swallowed :
    ∀ (o : MatchOracles) (ext : Option String) (content : String),
      (∀ e, ext = some e → e ∉ structuralExts) →
      (parse_file o.structural ext content).isOk = false
        ∧ ∀ (f : FileEntry) (c : String), f.ext = ext → f.content = some c →
            scan_file o f = Except.ok (normalizeCalls (o.lexical f.path c)) := by
  intro o ext content hunsup
  have herr : ∀ (c' : String), (parse_file o.structural ext c').isOk = false := by
    intro c'
    cases ext with
    | none => rfl
    | some e =>
      have : e ∉ structuralExts := hunsup e rfl
      simp [parse_file, this, Except.isOk, Except.toBool]
  refine ⟨herr content, ?_⟩
  intro f c hfe hfc
  simp only [scan_file, hfc]
  cases hpf : parse_file o.structural f.ext c with
  | ok cs =>
    have := herr c
    rw [hfe] at hpf
    rw [hpf] at this
    simp [Except.isOk, Except.toBool] at this
  | error e => rfl

/-- Witness for the amended C4 at the concrete extension `md`. -/
theorem parse_file_unsupported_error_swallowed_witness :
    (parse_file demoOracles.structural (some "md") "y").isOk = false
      ∧ ∀ (f : FileEntry) (c : String), f.ext = some "md" → f.content = some c →
          scan_file demoOracles f
            = Except.ok (normalizeCalls (demoOracles.lexical f.path c)) :=
  parse_file_unsupported_error_swallowed demoOracles (some "md") "y"
    (fun e he => by cases he; decide)

/-- C8: scanning any collected file list never fails, reports
`files_scanned` equal to the number of collected files, and every Call in
the result comes from a file that was readable and scanned successfully —
unreadable or unparsable files contribute nothing without aborting the
scan. -/
theorem scan_directory_error_containment :
    ∀ (o : MatchOracles) (files : List FileEntry),
      (scan_directory o files).files_scanned = files.length
        ∧ ∀ c ∈ (scan_directory o files).ai_calls,
            ∃ f ∈ files, f.content.isSome = true
              ∧ ∃ cs, scan_file o f = Except.ok cs ∧ c ∈ cs := by
  intro o files
  refine ⟨rfl, ?_⟩
  intro c hc
  simp only [scan_directory, List.mem_flatten, List.mem_map] at hc
  obtain ⟨l, ⟨f, hf, hfl⟩, hcl⟩ := hc
  refine ⟨f, hf, ?_⟩
  cases hsf : scan_file o f with
  | error e =>
    rw [hsf] at hfl
    subst hfl
    cases hcl
  | ok cs =>
    rw [hsf] at hfl
    subst hfl
    have hread : f.content.isSome = true := by
      cases hfc : f.content with
      | none => simp [scan_file, hfc] at hsf
      | some _ => rfl
    exact ⟨hread, cs, rfl, hcl⟩

/-- Witness for C8 on a two-file directory with one unreadable file. -/
theorem scan_directory_error_containment_witness :
    ∃ f ∈ [readableFile, unreadableFile], f.content.isSome = true
      ∧ ∃ cs, scan_file demoOracles f = Except.ok cs ∧ demoCall ∈ cs :=
  (scan_directory_error_containment demoOracles [readableFile, unreadableFile]).2
    demoCall (by
      have h : (scan_directory demoOracles [readableFile, unreadableFile]).ai_calls
          = normalizeCalls [demoCall] ++ [] := rfl
      rw [h, normalizeCalls, sortDedup_singleton]
      simp)

/-- Modelled from the spec: the line count of one file's content, with
Rust `str::lines` semantics (a trailing newline does not open a new
line).  `src/core.rs` never computes any per-file line count, which is
the divergence exhibited below. -/
def lineCount (s : String) : Nat :=
  if s.data = [] then 0
  else s.data.count '\n' + (if s.data.getLast? = some '\n' then 0 else 1)

/-- Modelled from the spec: `Inventory.total_lines` should be the sum of
the line counts of the scanned readable files. -/
def specTotalLines (files : List FileEntry) : Nat :=
  (files.map (fun f =>
    match f.content with
    | some c => lineCount c
    | none => 0)).sum

/-- C5 (code bug): the `total_lines` counter of `scan_directory` is
created, read, but never incremented, so the Inventory always reports
zero total lines — here a scan of one readable one-line file reports 0
where the spec requires 1. -/
theorem scan_directory_total_lines_zero :
    (scan_directory demoOracles [readableFile]).total_lines = 0
      ∧ specTotalLines [readableFile] = 1 := by
  constructor
  · rfl
  · decide

/-! ## Lexical matcher offset conversion (`src/patterns.rs`) -/

/-- The loop of `PatternMatcher::byte_offset_to_line_col`: walk the
content's scalar values, breaking once the running byte offset has
reached the target, counting line breaks and columns on the way. -/
def lineColLoop (byte_offset : Nat) : List Char → Nat → Nat → Nat → Nat × Nat
  | [], line, col, _ => (line, col)
  | c :: cs, line, col, current_offset =>
    if byte_offset ≤ current_offset then (line, col)
    else if c = '\n' then
      lineColLoop byte_offset cs (line + 1) 0 (current_offset + c.utf8Size)
    else
      lineColLoop byte_offset cs line (col + 1) (current_offset + c.utf8Size)

/-- `PatternMatcher::byte_offset_to_line_col` from `src/patterns.rs`. -/
def byte_offset_to_line_col (content : String) (byte_offset : Nat) : Nat × Nat :=
  lineColLoop byte_offset content.data 0 0 0

/-- The UTF-8 byte length of a list of scalar values (the byte offsets
Rust's regex engine hands back are sums of `len_utf8` over a prefix). -/
def utf8Len : List Char → Nat
  | [] => 0
  | c :: cs => c.utf8Size + utf8Len cs

/-- The 1-based line `PatternMatcher::create_ai_call` reports for a match
starting at the given byte offset: the conversion's 0-based line, plus
one. -/
def reportedLine (content : String) (match_start : Nat) : Nat :=
  (byte_offset_to_line_col content match_start).1 + 1

/-- Loop invariant: aimed at the byte offset of the `k`-th scalar value,
the loop adds exactly the newlines of that prefix to the line
accumulator. -/
theorem lineColLoop_line :
    ∀ (l : List Char) (k line col cur : Nat),
      (lineColLoop (cur + utf8Len (l.take k)) l line col cur).1
        = line + (l.take k).count '\n'
  | [], k, line, col, cur => by simp [lineColLoop]
  | c :: cs, 0, line, col, cur => by
    simp [lineColLoop, utf8Len]
  | c :: cs, k + 1, line, col, cur => by
    have hpos : 0 < c.utf8Size := Char.utf8Size_pos c
    simp only [List.take_succ_cons, utf8Len]
    have hnot : ¬ (cur + (c.utf8Size + utf8Len (cs.take k)) ≤ cur) := by omega
    simp only [lineColLoop, if_neg hnot]
    have hassoc : cur + (c.utf8Size + utf8Len (cs.take k))
        = (cur + c.utf8Size) + utf8Len (cs.take k) := by omega
    by_cases hnl : c = '\n'
    · rw [if_pos hnl, hassoc,
        lineColLoop_line cs k (line + 1) 0 (cur + c.utf8Size)]
      subst hnl
      simp [List.count_cons]
      omega
    · rw [if_neg hnl, hassoc,
        lineColLoop_line cs k line (col + 1) (cur + c.utf8Size)]
      simp [List.count_cons, hnl]

/-- C6: for every content string and every match offset lying on a scalar
boundary (the byte length of a `k`-scalar prefix), the reported 1-based
line equals one plus the number of newline characters in the content
before that offset. -/
theorem reportedLine_exact :
    ∀ (content : String) (off k : Nat),
      off = utf8Len (content.data.take k) →
      reportedLine content off = 1 + (content.data.take k).count '\n' := by
  intro content off k h
  subst h
  have hloop := lineColLoop_line content.data k 0 0 0
  rw [Nat.zero_add] at hloop
  rw [reportedLine, byte_offset_to_line_col, hloop]
  omega

/-- Witness for C6 on multi-byte content: in `"é\nx"` the match at byte
offset 3 (the `x`, after a two-byte scalar and a newline) is reported on
line 2. -/
theorem reportedLine_exact_witness :
    (3 = utf8Len (("é\nx").data.take 2)
        ∧ reportedLine "é\nx" 3 = 1 + (("é\nx").data.take 2).count '\n')
      ∧ reportedLine "é\nx" 3 = 2 :=
  ⟨⟨by decide, reportedLine_exact "é\nx" 3 2 (by decide)⟩, by decide⟩

/-! ## Static rule engine and audit coordinator (`src/audit.rs`) -/

/-- `Severity` from `src/audit.rs`. -/
inductive Severity where
  | Critical
  | High
  | Medium
  | Low
  | Info
deriving DecidableEq, Repr

/-- `IssueType` from `src/audit.rs`. -/
inductive IssueType where
  | LLM01PromptInjection
  | LLM02InsecureOutputHandling
  | LLM03TrainingDataPoisoning
  | LLM04ModelDoS
  | LLM05SupplyChainVulnerabilities
  | LLM06SensitiveInfoDisclosure
  | LLM07InsecurePluginDesign
  | LLM08ExcessiveAgency
  | LLM09Overreliance
  | LLM10ModelTheft
  | ApiKeyExposure
  | MissingInputValidation
  | UnrestrictedModelAccess
  | MissingRateLimiting
  | InsecureModelStorage
deriving DecidableEq, Repr

/-- `SecurityFinding` from `src/audit.rs`. -/
structure SecurityFinding where
  id : String
  severity : Severity
  file : String
  line : Nat
  issue_type : IssueType
  description : String
  rationale : String
  fix : String
deriving DecidableEq, Repr

/-- `AuditSummary` from `src/audit.rs`. -/
structure AuditSummary where
  total_findings : Nat
  critical : Nat
  high : Nat
  medium : Nat
  low : Nat
  info : Nat
deriving DecidableEq, Repr

/-- `AuditResult` from `src/audit.rs`. -/
structure AuditResult where
  findings : List SecurityFinding
  summary : AuditSummary
deriving DecidableEq, Repr

/-- Whether `pat` occurs as a contiguous sublist of `l` — Rust
`str::contains` over the underlying text. -/
def listIsSub {α : Type} [DecidableEq α] (pat : List α) : List α → Bool
  | [] => pat.isEmpty
  | a :: rest => pat.isPrefixOf (a :: rest) || listIsSub pat rest

/-- Rust `str::contains` with a string pattern. -/
def strContains (s pat : String) : Bool := listIsSub pat.data s.data

/-- The hardcoded-API-key rule of `SecurityAuditor::static_analysis`: an
API-key marker in the context with no environment-retrieval marker is a
High-severity `ApiKeyExposure` finding. -/
def apiKeyFinding (call : AiCall) : List SecurityFinding :=
  if (strContains call.context "api_key" || strContains call.context "API_KEY")
      && (!strContains call.context "env" && !strContains call.context "getenv") then
    [{ id := "STATIC-001-" ++ call.file ++ ":" ++ toString call.line,
       severity := Severity.High,
       file := call.file,
       line := call.line,
       issue_type := IssueType.ApiKeyExposure,
       description := "Potential hardcoded API key detected",
       rationale := "API keys should be stored in environment variables or secure vaults, not in code",
       fix := "Move API key to environment variable or use a secrets management service" }]
  else []

/-- The missing-input-validation rule of
`SecurityAuditor::static_analysis`. -/
def inputValidationFinding (call : AiCall) : List SecurityFinding :=
  if (strContains call.wrapper "chat" || strContains call.wrapper "completion")
      && (!strContains call.context "validate" && !strContains call.context "sanitize") then
    [{ id := "STATIC-002-" ++ call.file ++ ":" ++ toString call.line,
       severity := Severity.Medium,
       file := call.file,
       line := call.line,
       issue_type := IssueType.MissingInputValidation,
       description := "AI call without apparent input validation",
       rationale := "User inputs to AI models should be validated to prevent prompt injection",
       fix := "Add input validation before passing to AI model" }]
  else []

/-- The unrestricted-model-access rule of
`SecurityAuditor::static_analysis`. -/
def modelAccessFinding (call : AiCall) : List SecurityFinding :=
  if (match call.model with
      | some m => strContains m "gpt-4" || strContains m "claude"
      | none => false)
      && (!strContains call.context "limit" && !strContains call.context "quota") then
    [{ id := "STATIC-003-" ++ call.file ++ ":" ++ toString call.line,
       severity := Severity.Medium,
       file := call.file,
       line := call.line,
       issue_type := IssueType.UnrestrictedModelAccess,
       description := "Expensive model usage without rate limiting",
       rationale := "High-cost models should have usage limits to prevent abuse",
       fix := "Implement rate limiting or usage quotas for expensive model calls" }]
  else []

/-- `SecurityAuditor::static_analysis` from `src/audit.rs`: per Call, the
three heuristics fire independently, findings accumulating in rule order
and then call order. -/
def static_analysis (calls : List AiCall) : List SecurityFinding :=
  calls.flatMap (fun call =>
    apiKeyFinding call ++ inputValidationFinding call ++ modelAccessFinding call)

/-- The Call of the spec's Static Rule Engine scenario: an
`openai.Client` construction whose context hardcodes the key. -/
def exposedKeyCall : AiCall :=
  { file := "app.py", line := 12, column := 5, wrapper := "openai.Client",
    model := none, params := "",
    context := "client = openai.Client(api_key=OPENAI_API_KEY)" }

/-- The same Call, but with the key pulled from the environment. -/
def envKeyCall : AiCall :=
  { exposedKeyCall with
    context := "client = openai.Client(api_key=os.getenv(\"OPENAI_API_KEY\"))" }

/-- C7: the hardcoded-key Call yields exactly one finding, High severity
and `ApiKeyExposure`; the environment-based variant yields none. -/
theorem static_analysis_api_key_scenario :
    (static_analysis [exposedKeyCall]).map (fun f => (f.severity, f.issue_type))
        = [(Severity.High, IssueType.ApiKeyExposure)]
      ∧ static_analysis [envKeyCall] = [] := by
  exact ⟨by decide, by decide⟩

/-- The sort/dedup key of `SecurityAuditor::audit`: the
`(file, line, id)` triple under Rust's lexicographic tuple order. -/
def findingKey (f : SecurityFinding) : Lex (String × Lex (Nat × String)) :=
  toLex (f.file, toLex (f.line, f.id))

/-- The per-finding body of `SecurityAuditor::calculate_summary`'s loop:
bump the counter of the finding's severity. -/
def summaryStep (s : AuditSummary) (f : SecurityFinding) : AuditSummary :=
  match f.severity with
  | Severity.Critical => { s with critical := s.critical + 1 }
  | Severity.High => { s with high := s.high + 1 }
  | Severity.Medium => { s with medium := s.medium + 1 }
  | Severity.Low => { s with low := s.low + 1 }
  | Severity.Info => { s with info := s.info + 1 }

/-- `SecurityAuditor::calculate_summary` from `src/audit.rs`:
`total_findings` is the list length, the per-severity counters start at
zero and are bumped once per finding. -/
def calculate_summary (findings : List SecurityFinding) : AuditSummary :=
  findings.foldl summaryStep
    { total_findings := findings.length, critical := 0, high := 0,
      medium := 0, low := 0, info := 0 }

/-- `SecurityAuditor::audit` from `src/audit.rs`, with the LLM analysis
step (budget reservation plus external backend call) abstracted as its
outcome.  Static findings always run; the LLM step is consulted only when
the inventory has at least one call, and its failure is swallowed with a
warning; findings are then sorted and deduped by `(file, line, id)` and
summarized. -/
def audit (llm : Except String (List SecurityFinding)) (inv : Inventory) :
    AuditResult :=
  let staticFindings := static_analysis inv.ai_calls
  let findings :=
    if inv.ai_calls.isEmpty then staticFindings
    else
      match llm with
      | Except.ok llmFindings => staticFindings ++ llmFindings
      | Except.error _ => staticFindings
  let findings := sortDedup findingKey findings
  { findings := findings, summary := calculate_summary findings }

/-- C9: the LLM step is consulted only when the Inventory has at least
one Call (on an empty inventory the audit result does not depend on it),
and whenever the LLM step fails — budget exhaustion or backend failure —
the audit still completes, its findings being exactly the static
findings sorted by `(file, line, id)` with exact-key duplicates
removed. -/
theorem audit_llm_gating_and_degradation :
    ∀ (inv : Inventory),
      (inv.ai_calls = [] →
        ∀ (llm llm' : Except String (List SecurityFinding)),
          audit llm inv = audit llm' inv)
      ∧ ∀ (e : String),
          (audit (Except.error e) inv).findings
            = sortDedup findingKey (static_analysis inv.ai_calls) := by
  intro inv
  constructor
  · intro hempty llm llm'
    simp [audit, hempty]
  · intro e
    by_cases h : inv.ai_calls.isEmpty <;> simp [audit, h]

/-- The empty inventory, for the C9 witness. -/
def emptyInv : Inventory :=
  { ai_calls := [], files_scanned := 0, total_lines := 0, scan_duration_ms := 0 }

/-- An arbitrary LLM-produced finding, for the C9 witness. -/
def demoLlmFinding : SecurityFinding :=
  { id := "LLM-001", severity := Severity.High, file := "app.py", line := 12,
    issue_type := IssueType.LLM01PromptInjection,
    description := "Potential prompt injection vulnerability",
    rationale := "User input is concatenated directly into prompts without sanitization",
    fix := "Use prompt templates and validate/sanitize all user inputs" }

/-- Witness for C9 on the empty inventory and a failed LLM pass. -/
theorem audit_llm_gating_and_degradation_witness :
    audit (Except.ok [demoLlmFinding]) emptyInv
        = audit (Except.error "Token budget exceeded") emptyInv
      ∧ (audit (Except.error "Token budget exceeded") emptyInv).findings
        = sortDedup findingKey (static_analysis emptyInv.ai_calls) :=
  ⟨(audit_llm_gating_and_degradation emptyInv).1 rfl
      (Except.ok [demoLlmFinding]) (Except.error "Token budget exceeded"),
    (audit_llm_gating_and_degradation emptyInv).2 "Token budget exceeded"⟩

/-- The number of findings in `l` carrying severity `sev`. -/
def countSev (sev : Severity) (l : List SecurityFinding) : Nat :=
  l.countP (fun f => decide (f.severity = sev))

/-- The summary fold adds the per-severity counts of the traversed list
to the accumulator, touching nothing else. -/
theorem foldl_summaryStep :
    ∀ (l : List SecurityFinding) (s : AuditSummary),
      l.foldl summaryStep s
        = { total_findings := s.total_findings,
            critical := s.critical + countSev Severity.Critical l,
            high := s.high + countSev Severity.High l,
            medium := s.medium + countSev Severity.Medium l,
            low := s.low + countSev Severity.Low l,
            info := s.info + countSev Severity.Info l }
  | [], s => by simp [countSev]
  | f :: l, s => by
    rw [List.foldl_cons, foldl_summaryStep l (summaryStep s f)]
    cases hsev : f.severity <;>
      simp [summaryStep, hsev, countSev, List.countP_cons] <;> omega

/-- Every finding carries exactly one severity, so the per-severity
counts sum to the length. -/
theorem countSev_total :
    ∀ (l : List SecurityFinding),
      countSev Severity.Critical l + countSev Severity.High l
          + countSev Severity.Medium l + countSev Severity.Low l
          + countSev Severity.Info l
        = l.length
  | [] => rfl
  | f :: l => by
    have ih := countSev_total l
    cases hsev : f.severity <;>
      simp [countSev, List.countP_cons, hsev] at ih ⊢ <;> omega

/-- C10: in every audit result, `total_findings` equals the length of the
findings list, each per-severity counter counts the findings of that
severity, and the counters sum to the total. -/
theorem audit_summary_invariant :
    ∀ (llm : Except String (List SecurityFinding)) (inv : Inventory),
      (audit llm inv).summary.total_findings = (audit llm inv).findings.length
        ∧ (audit llm inv).summary.total_findings
            = (audit llm inv).summary.critical + (audit llm inv).summary.high
              + (audit llm inv).summary.medium + (audit llm inv).summary.low
              + (audit llm inv).summary.info
        ∧ (audit llm inv).summary.critical
            = countSev Severity.Critical (audit llm inv).findings
        ∧ (audit llm inv).summary.high
            = countSev Severity.High (audit llm inv).findings
        ∧ (audit llm inv).summary.medium
            = countSev Severity.Medium (audit llm inv).findings
        ∧ (audit llm inv).summary.low
            = countSev Severity.Low (audit llm inv).findings
        ∧ (audit llm inv).summary.info
            = countSev Severity.Info (audit llm inv).findings := by
  intro llm inv
  have hs : (audit llm inv).summary
      = calculate_summary ((audit llm inv).findings) := rfl
  rw [hs, calculate_summary, foldl_summaryStep]
  refine ⟨rfl, ?_, by simp, by simp, by simp, by simp, by simp⟩
  have := countSev_total ((audit llm inv).findings)
  simp
  omega
